import Mathlib

/-!
Shallow embedding of the F-Zero SRAM codec (`src/fzero/sram.py`).

Bytes are modelled as `Nat` (each byte value below 256 where it matters), byte
strings as `List Nat`.  Python's arbitrary-precision integers are `Nat`; the
bit mask `x & ((1 <<< b) - 1)` is written `x % 2 ^ b`.  The helper module
`fzero/util.py` is not part of the sources; its functions (`sliced`,
`chunked`) are modelled from the spec where noted.
-/

namespace FZero

/-! ### Constants (sram.py top of file) -/

def SRAM_SIZE : Nat := 2048
def LEAGUES : Nat := 3
def TRACKS : Nat := 5
def RECORDS : Nat := 11
def RECORD_SIZE : Nat := 3
def CHECKSUM_SIZE : Nat := 2
def UNLOCKS_SIZE : Nat := 1
/-- `PADDING = b'\xFF'` -/
def PADDING : List Nat := [255]
/-- `SIGNATURE = b"FZERO"` (ASCII bytes). -/
def SIGNATURE : List Nat := [70, 90, 69, 82, 79]
def SIGNATURE_SIZE : Nat := 5
/-- `RECORD_SIZE * RECORDS * TRACKS + CHECKSUM_SIZE = 167` -/
def LEAGUE_SIZE : Nat := RECORD_SIZE * RECORDS * TRACKS + CHECKSUM_SIZE
def DATA_SIZE : Nat := LEAGUE_SIZE * LEAGUES + 2 * SIGNATURE_SIZE + UNLOCKS_SIZE

/-! ### Byte-string helpers

`bytesToNat` is Python's `int.from_bytes(data, 'big')`, `bytesToNatLE` the
little-endian variant, `natToBytes`/`natToBytesLE` are `int.to_bytes`.
`int.to_bytes` raises `OverflowError` when the value does not fit; every call
site in the source packs a value that provably fits, so the total model below
agrees with the source on all reachable inputs. -/

def bytesToNat (bs : List Nat) : Nat := bs.foldl (fun acc b => acc * 256 + b) 0

def bytesToNatLE (bs : List Nat) : Nat := bs.foldr (fun b acc => acc * 256 + b) 0

def natToBytes : Nat → Nat → List Nat
  | _, 0 => []
  | n, len + 1 => natToBytes (n / 256) len ++ [n % 256]

def natToBytesLE : Nat → Nat → List Nat
  | _, 0 => []
  | n, len + 1 => n % 256 :: natToBytesLE (n / 256) len

/-- Modelled from the spec: `util.sliced(data, offset, size)` returns the slice
`data[offset:offset + size]`; like a Python slice it is shorter than `size`
when the data runs out, and never fails. -/
def sliced (data : List Nat) (offset size : Nat) : List Nat :=
  (data.drop offset).take size

/-- Modelled from the spec: `util.chunked(l, n)` splits a list into
consecutive chunks of `n` elements each (used with `n > 0` and
`n ∣ l.length` only).  Fuel-based so that it is structurally recursive. -/
def chunkedAux (n : Nat) : Nat → List α → List (List α)
  | _, [] => []
  | 0, _ => []
  | fuel + 1, l => l.take n :: chunkedAux n fuel (l.drop n)

def chunked (l : List α) (n : Nat) : List (List α) := chunkedAux n l.length l

/-! ### Decimal/hexadecimal digit conversion

`unpack` runs `int("{:x}".format(v))` on each extracted field: render the
field in hexadecimal and reread the rendering as decimal, which raises
`ValueError` whenever a hex digit `a`-`f` appears.  `pack` runs
`int(str(int(v)), 16)`: render in decimal, reread as hexadecimal.  These are
binary-coded-decimal conversions.  `digitsBase b n` is the little-endian list
of base-`b` digits of `n` (fuel-based for kernel computability); it agrees
with Mathlib's `Nat.digits`. -/

def digitsAux (b : Nat) : Nat → Nat → List Nat
  | 0, _ => []
  | fuel + 1, n => if n = 0 then [] else n % b :: digitsAux b fuel (n / b)

def digitsBase (b n : Nat) : List Nat := digitsAux b n n

def ofDigitsBase (b : Nat) (ds : List Nat) : Nat :=
  ds.foldr (fun d acc => d + b * acc) 0

/-- `int(str(int(v)), 16)`: reread the decimal rendering of `v` as hex. -/
def bcdEncode (v : Nat) : Nat := ofDigitsBase 16 (digitsBase 10 v)

/-- `int("{:x}".format(n))`: reread the hex rendering of `n` as decimal;
`none` models the `ValueError` raised when a digit `a`-`f` appears. -/
def bcdDecode? (n : Nat) : Option Nat :=
  if (digitsBase 16 n).all (· < 10) then some (ofDigitsBase 10 (digitsBase 16 n))
  else none

/-! ### pack / unpack (sram.py bottom of file) -/

/-- The generator body of `unpack`: extract fields of the given bit widths
from the low bits of `num` upward; `none` models the uncaught `ValueError`
from the hex-to-decimal reread of a field. -/
def unpackNum : Nat → List Nat → Option (List Nat)
  | _, [] => some []
  | num, bits :: rest =>
    match bcdDecode? (num % 2 ^ bits) with
    | none => none
    | some v => (unpackNum (num / 2 ^ bits) rest).map (v :: ·)

/-- `unpack(data, *bit_lengths)`, fully forced into a list (as all of its
callers do with `tuple(...)` / `list(...)`). -/
def unpack (data : List Nat) (widths : List Nat) : Option (List Nat) :=
  unpackNum (bytesToNat data) widths

/-- The loop of `pack`: accumulate `(num, shift)` over the value/width
pairs. -/
def packAux : List (Nat × Nat) → Nat × Nat → Nat × Nat
  | [], acc => acc
  | (v, bits) :: rest, (num, shift) =>
    packAux rest (num + bcdEncode v % 2 ^ bits * 2 ^ shift, shift + bits)

/-- `pack(*values)`. -/
def pack (values : List (Nat × Nat)) : List Nat :=
  let acc := packAux values (0, 0)
  natToBytes acc.1 ((acc.2 + 7) / 8)

/-! ### Mode, Car, Record -/

inductive Mode where
  | GRAND_PRIX
  | PRACTICE
deriving DecidableEq, Repr

def Mode.toNat : Mode → Nat
  | .GRAND_PRIX => 0
  | .PRACTICE => 1

/-- `Mode(n)`: `none` models the `ValueError` on an ordinal with no variant. -/
def Mode.ofNat? : Nat → Option Mode
  | 0 => some .GRAND_PRIX
  | 1 => some .PRACTICE
  | _ => none

inductive Car where
  | BLUE_FALCON
  | WILD_GOOSE
  | GOLDEN_FOX
  | FIRE_STINGRAY
deriving DecidableEq, Repr

def Car.toNat : Car → Nat
  | .BLUE_FALCON => 0
  | .WILD_GOOSE => 1
  | .GOLDEN_FOX => 2
  | .FIRE_STINGRAY => 3

/-- `Car(n)`: `none` models the `ValueError` on an ordinal with no variant. -/
def Car.ofNat? : Nat → Option Car
  | 0 => some .BLUE_FALCON
  | 1 => some .WILD_GOOSE
  | 2 => some .GOLDEN_FOX
  | 3 => some .FIRE_STINGRAY
  | _ => none

/-- `Record.__init__` defaults: a blank slot, time 9:59.99, hidden. -/
structure Record where
  minutes : Nat := 9
  seconds : Nat := 59
  cents : Nat := 99
  car : Car := .BLUE_FALCON
  mode : Mode := .GRAND_PRIX
  display : Bool := false
deriving DecidableEq, Repr

instance : Inhabited Record := ⟨{}⟩

/-- `Record.from_data`, with the exceptions Python could raise made explicit:
the `try` block catches the `ValueError` from `unpack` (yielding the default
blank Record), while a `ValueError` from `Car(...)`/`Mode(...)` — outside the
`try` — would propagate (modelled as `.error`).  The `some _` catch-all covers
an `unpack` result of the wrong arity, impossible for six widths. -/
def Record.fromDataE (data : List Nat) : Except String Record :=
  match unpack data [8, 8, 4, 2, 1, 1] with
  | none => .ok {}
  | some [c, s, m, car, mo, d] =>
    match Car.ofNat? car, Mode.ofNat? mo with
    | some car, some mo =>
      .ok { minutes := m, seconds := s, cents := c, car := car, mode := mo,
            display := d != 0 }
    | _, _ => .error ("ValueError")
  | some _ => .error ("ValueError")

/-- Total version of `Record.from_data`; `record_fromDataE_ok` below proves it
agrees with `Record.fromDataE` on every input. -/
def Record.fromData (data : List Nat) : Record :=
  match Record.fromDataE data with
  | .ok r => r
  | .error _ => {}

/-- `Record.to_data`. -/
def Record.toData (r : Record) : List Nat :=
  pack [(r.cents, 8), (r.seconds, 8), (r.minutes, 4), (r.car.toNat, 2),
        (r.mode.toNat, 1), ((if r.display then 1 else 0), 1)]

/-- `int(Time(...))`: total centiseconds. -/
def Record.timeCents (r : Record) : Nat :=
  100 * (60 * r.minutes + r.seconds) + r.cents

/-- `Record.__lt__` compares `self.time < other.time`; `Time` is a
`NamedTuple`, so Python compares the `(minutes, seconds, cents)` tuples
lexicographically. -/
def Record.lt (a b : Record) : Bool :=
  if a.minutes ≠ b.minutes then decide (a.minutes < b.minutes)
  else if a.seconds ≠ b.seconds then decide (a.seconds < b.seconds)
  else decide (a.cents < b.cents)

/-! ### Checksum -/

/-- `Checksum.parse`: 2 bytes little-endian (works on any length, like
`int.from_bytes`). -/
def Checksum.parse (bs : List Nat) : Nat := bytesToNatLE bs

/-- `Checksum.from_data`: `cls(sum(data))` — the plain sum of the byte
values, with no modular reduction. -/
def Checksum.fromData (data : List Nat) : Nat := data.sum

/-- `Checksum.to_data`: 2 bytes little-endian.  `int.to_bytes` raises
`OverflowError` for values at or above 2^16; the only call site encodes the
checksum of 165 bytes, at most 165 * 255 < 2^16, so the total model agrees
with the source there. -/
def Checksum.toData (n : Nat) : List Nat := natToBytesLE n CHECKSUM_SIZE

/-! ### League -/

structure League where
  records : List Record := []
  name : String := ""
deriving DecidableEq, Repr

/-- The record table decoded by the loop in `League.from_data`: the nested
`for i in range(TRACKS): for r in range(RECORDS)` loop with a running
3-byte offset reads record `i * RECORDS + r` at offset
`(i * RECORDS + r) * RECORD_SIZE`, flattened here to one index below
`TRACKS * RECORDS = 55`. -/
def leagueRecords (data : List Nat) : List Record :=
  (List.range (TRACKS * RECORDS)).map
    (fun i => Record.fromData (sliced data (i * RECORD_SIZE) RECORD_SIZE))

/-- `League.from_data` with the checksum-mismatch `BadData` exception made
explicit: records are decoded first, then the stored checksum (at offset
165) is compared with the recomputed one; on mismatch the strict flag
decides between `.error` (raise) and `.ok` (warn and keep the records). -/
def League.fromDataE (data : List Nat) (name : String) (raise_on_checksum : Bool) :
    Except String League :=
  let records := leagueRecords data
  let checksum := Checksum.parse
    (sliced data (TRACKS * RECORDS * RECORD_SIZE) CHECKSUM_SIZE)
  let expected := Checksum.fromData
    (sliced data 0 (TRACKS * RECORDS * RECORD_SIZE))
  if checksum = expected then .ok { records := records, name := name }
  else if raise_on_checksum then .error ("League checksum FAIL")
  else .ok { records := records, name := name }

/-- `League.from_data` with the default `raise_on_checksum=False`, which
never raises; `league_checksum_policy` below proves it agrees with the
non-strict `League.fromDataE`. -/
def League.fromData (data : List Nat) (name : String) : League :=
  { records := leagueRecords data, name := name }

/-- `League.to_data`: record encodings concatenated, then the freshly
recomputed checksum. -/
def League.toData (l : League) : List Nat :=
  let data := (l.records.map Record.toData).flatten
  data ++ Checksum.toData (Checksum.fromData data)

/-- `LEAGUE_INFO.get(self.name) or ("Track 1", ...)`. -/
def League.tracks (l : League) : List String :=
  if l.name = "Knight" then
    ["Mute City I", "Big Blue", "Sand Ocean", "Death Wind I", "Silence"]
  else if l.name = "Queen" then
    ["Mute City II", "Port Town I", "Red Canyon I", "White Land I",
     "White Land II"]
  else if l.name = "King" then
    ["Mute City III", "Death Wind II", "Port Town II", "Red Canyon II",
     "Fire Field"]
  else ["Track 1", "Track 2", "Track 3", "Track 4", "Track 5"]

/-- One element of `League.track_records()`: `(track name, race records,
best lap)`. -/
structure TrackRecs where
  track : String
  races : List Record
  lap : Record
deriving DecidableEq, Repr

/-- `League.track_records()`: chunk the table into `len(records) // 5`
records per track; each chunk's last record is the best lap, the rest are
the race attempts.  `tracks[track]` and `r[-1]` raise on a table that is not
5 nonempty chunks; the defaults stand in for those unreachable cases (every
decoded league has exactly 55 records). -/
def League.trackRecords (l : League) : List TrackRecs :=
  (chunked l.records (l.records.length / TRACKS)).enum.map
    (fun p => ⟨l.tracks.getD p.1 "", p.2.dropLast, p.2.getLastD {}⟩)

/-! ### Save -/

structure Save where
  leagues : List League := []
  unlocks : List Bool := []
  padding : List Nat := []
deriving DecidableEq, Repr

/-- `Save._parse_unlocks`: unpack the byte into 8 one-bit fields (bit 0
first), split into two halves of 4; the halves must agree and the bits past
the 3 league flags must all be zero (Python's `set(unlocks[LEAGUES:]) ==
{0}`), else the unlock list is emptied; finally keep the first 3 bits as
booleans.  The `none` branch is unreachable: one-bit fields survive the
hex-to-decimal reread. -/
def parseUnlocks (data : List Nat) : List Bool :=
  match unpack data [1, 1, 1, 1, 1, 1, 1, 1] with
  | some bits =>
    match chunked bits (UNLOCKS_SIZE * 8 / 2) with
    | [unlocks, mirror] =>
      let unlocks :=
        if unlocks = mirror ∧ (unlocks.drop LEAGUES).all (· = 0) ∧
            unlocks.drop LEAGUES ≠ [] then unlocks
        else []
      (unlocks.map (· != 0)).take LEAGUES
    | _ => []
  | none => []

/-- `Save._pack_unlocks`: pad the unlock list with `False` to 4 entries,
duplicate it into both halves of the byte, pack as 8 one-bit fields. -/
def packUnlocksList (u : List Bool) : List Nat :=
  let bits := UNLOCKS_SIZE * 8 / 2
  let unlocks := (u ++ List.replicate (bits - u.length) false).take bits
  let doubled := unlocks ++ unlocks
  pack (doubled.map (fun b => ((if b then 1 else 0), 1)))

def Save.packUnlocks (s : Save) : List Nat := packUnlocksList s.unlocks

/-- `Save.from_data`: header/footer signature checks only log warnings and
do not affect the result, so they are omitted from the value-level model;
the three leagues are decoded at offsets 5, 172, 339 with the non-strict
`League.from_data`, the unlock byte at 506, and any byte past offset 512 is
captured (one byte) as padding. -/
def Save.fromData (data : List Nat) : Save :=
  { leagues :=
      [League.fromData (sliced data SIGNATURE_SIZE LEAGUE_SIZE) "Knight",
       League.fromData (sliced data (SIGNATURE_SIZE + LEAGUE_SIZE) LEAGUE_SIZE)
         "Queen",
       League.fromData
         (sliced data (SIGNATURE_SIZE + 2 * LEAGUE_SIZE) LEAGUE_SIZE) "King"],
    unlocks := parseUnlocks
      (sliced data (SIGNATURE_SIZE + 3 * LEAGUE_SIZE) UNLOCKS_SIZE),
    padding :=
      if DATA_SIZE < data.length then sliced data DATA_SIZE 1 else [] }

/-- `Save.to_data`: signature, league encodings, packed unlock byte,
signature, left-justified to 2048 bytes with the first available fill byte
(`padding or self.padding or PADDING`). -/
def Save.toData (s : Save) (padding : List Nat) : List Nat :=
  let data := SIGNATURE ++ (s.leagues.map League.toData).flatten ++
    s.packUnlocks ++ SIGNATURE
  let fill := (if padding ≠ [] then padding
    else if s.padding ≠ [] then s.padding else PADDING).headD 255
  data ++ List.replicate (SRAM_SIZE - data.length) fill

/-! ### Merge -/

/-- `min(self_lap, save_lap)` via `Record.__lt__`: Python's binary `min`
returns the second argument only when it is strictly smaller, so ties keep
the first (primary) argument. -/
def pymin (a b : Record) : Record := if Record.lt b a then b else a

/-- Stable insertion of a record in front of the first strictly-greater
element. -/
def insertRec (r : Record) : List Record → List Record
  | [] => [r]
  | x :: xs => if Record.lt x r then x :: insertRec r xs else r :: x :: xs

/-- Modelled Python `sorted`: a stable sort by `Record.__lt__`.  `Record.lt`
is a strict weak order (the lexicographic order on the time triple), and the
stable sort for such an order is unique, so this insertion sort computes the
same list as Python's stable mergesort. -/
def sortRecords (l : List Record) : List Record := l.foldr insertRec []

/-- The per-track body of `Save.merge`: on a track-name mismatch keep the
primary's races (`self_races[:RECORDS - 1]`, all 10 of them) and its lap;
otherwise the 10 best of both races lists (stable sort of the
concatenation), then the smaller lap. -/
def mergeTrackRecs (a b : TrackRecs) : List Record :=
  if a.track = b.track then
    (sortRecords (a.races ++ b.races)).take (RECORDS - 1) ++ [pymin a.lap b.lap]
  else a.races.take (RECORDS - 1) ++ [a.lap]

/-- The per-league body of `Save.merge`: on a league-name mismatch the
primary league is left unchanged (`continue`); otherwise its record table is
rebuilt from the positionally-paired tracks. -/
def League.mergeWith (a b : League) : League :=
  if a.name = b.name then
    let recs := (a.trackRecords.zip b.trackRecords).flatMap
      (fun p => mergeTrackRecs p.1 p.2)
    { a with records := recs }
  else a

/-- `Save.merge` with one secondary save (the source folds this body over
`*saves`): leagues are paired positionally by `zip` (unpaired primary
leagues stay as they are), and the unlock list is replaced by the
positional boolean OR (`zip` truncates it to the shorter list). -/
def Save.merge (s o : Save) : Save :=
  { s with
    leagues := s.leagues.zipWith League.mergeWith o.leagues ++
      s.leagues.drop o.leagues.length,
    unlocks := s.unlocks.zipWith (· || ·) o.unlocks }

/-! ## Lemmas about the digit conversions -/

theorem digitsAux_eq_digits (b : Nat) (hb : 2 ≤ b) :
    ∀ fuel n, n ≤ fuel → digitsAux b fuel n = Nat.digits b n := by
  intro fuel
  induction fuel with
  | zero =>
    intro n hn
    interval_cases n
    simp [digitsAux]
  | succ fuel ih =>
    intro n hn
    by_cases h0 : n = 0
    · simp [digitsAux, h0]
    · rw [digitsAux, if_neg h0, Nat.digits_def' hb (Nat.pos_of_ne_zero h0), ih]
      have hdiv : n / b < n := Nat.div_lt_self (Nat.pos_of_ne_zero h0) hb
      omega

theorem digitsBase_eq_digits (b n : Nat) (hb : 2 ≤ b) :
    digitsBase b n = Nat.digits b n :=
  digitsAux_eq_digits b hb n n le_rfl

theorem ofDigitsBase_eq_ofDigits (b : Nat) (ds : List Nat) :
    ofDigitsBase b ds = Nat.ofDigits b ds := by
  induction ds with
  | nil => simp [ofDigitsBase, Nat.ofDigits_nil]
  | cons d ds ih =>
    simp [ofDigitsBase, Nat.ofDigits_cons] at *
    omega

theorem bcdEncode_eq (v : Nat) :
    bcdEncode v = Nat.ofDigits 16 (Nat.digits 10 v) := by
  rw [bcdEncode, ofDigitsBase_eq_ofDigits, digitsBase_eq_digits 10 v (by norm_num)]

/-- Decoding is a left inverse of encoding: the decimal digits of `v` are all
below 10, hence valid hexadecimal digits, and the hex rendering of the
encoded value is exactly the decimal rendering of `v`. -/
theorem bcdDecode_bcdEncode (v : Nat) : bcdDecode? (bcdEncode v) = some v := by
  by_cases h0 : v = 0
  · subst h0; decide
  · have h10 : (1 : Nat) < 10 := by norm_num
    have hdig : ∀ d ∈ Nat.digits 10 v, d < 10 :=
      fun d hd => Nat.digits_lt_base h10 hd
    have hdig16 : ∀ d ∈ Nat.digits 10 v, d < 16 :=
      fun d hd => lt_trans (hdig d hd) (by norm_num)
    have hlast : ∀ h : Nat.digits 10 v ≠ [], (Nat.digits 10 v).getLast h ≠ 0 :=
      fun _ => Nat.getLast_digit_ne_zero 10 h0
    have hd16 : Nat.digits 16 (bcdEncode v) = Nat.digits 10 v := by
      rw [bcdEncode_eq]
      exact Nat.digits_ofDigits 16 (by norm_num) _ hdig16 hlast
    rw [bcdDecode?, digitsBase_eq_digits _ _ (by norm_num), hd16, if_pos]
    · rw [ofDigitsBase_eq_ofDigits, Nat.ofDigits_digits]
    · rw [List.all_eq_true]
      intro d hd
      simpa using hdig d (by simpa using hd)

theorem digits_length_le (b v k : Nat) (hb : 1 < b) (h : v < b ^ k) :
    (Nat.digits b v).length ≤ k := by
  by_cases h0 : v = 0
  · simp [h0]
  · rw [Nat.digits_len b v hb h0]
    have := Nat.log_lt_of_lt_pow h0 h
    omega

/-- If `v` fits in `k` decimal digits then its BCD encoding fits in `k`
hexadecimal digits (that is, in `4 * k` bits). -/
theorem bcdEncode_lt (v k : Nat) (h : v < 10 ^ k) : bcdEncode v < 16 ^ k := by
  rw [bcdEncode_eq]
  have hlen : (Nat.digits 10 v).length ≤ k :=
    digits_length_le 10 v k (by norm_num) h
  have hdig16 : ∀ d ∈ Nat.digits 10 v, d < 16 :=
    fun d hd => lt_trans (Nat.digits_lt_base (by norm_num) hd) (by norm_num)
  calc Nat.ofDigits 16 (Nat.digits 10 v) < 16 ^ (Nat.digits 10 v).length :=
        Nat.ofDigits_lt_base_pow_length (by norm_num) hdig16
    _ ≤ 16 ^ k := Nat.pow_le_pow_right (by norm_num) hlen

theorem bcdEncode_self (v : Nat) (h : v < 10) : bcdEncode v = v := by
  interval_cases v <;> decide

theorem bcdDecode_self (n : Nat) (h : n < 10) : bcdDecode? n = some n := by
  interval_cases n <;> decide

/-- A successfully decoded `k`-hex-digit value has at most `k` decimal
digits. -/
theorem bcdDecode_lt (n v k : Nat) (hn : n < 16 ^ k)
    (h : bcdDecode? n = some v) : v < 10 ^ k := by
  rw [bcdDecode?] at h
  split at h
  case isFalse => exact absurd h (by simp)
  case isTrue hall =>
    have hv : v = ofDigitsBase 10 (digitsBase 16 n) := by
      simpa using h.symm
    rw [hv, ofDigitsBase_eq_ofDigits, digitsBase_eq_digits _ _ (by norm_num)]
    have hlen : (Nat.digits 16 n).length ≤ k :=
      digits_length_le 16 n k (by norm_num) hn
    have hdig : ∀ d ∈ Nat.digits 16 n, d < 10 := by
      intro d hd
      rw [digitsBase_eq_digits _ _ (by norm_num), List.all_eq_true] at hall
      simpa using hall d (by simpa using hd)
    calc Nat.ofDigits 10 (Nat.digits 16 n) < 10 ^ (Nat.digits 16 n).length :=
          Nat.ofDigits_lt_base_pow_length (by norm_num) hdig
      _ ≤ 10 ^ k := Nat.pow_le_pow_right (by norm_num) hlen

/-! ## Lemmas about pack / unpack -/

/-- Specification-level form of the number accumulated by `packAux`,
first value in the low bits. -/
def packNum : List (Nat × Nat) → Nat
  | [] => 0
  | (v, bits) :: rest => bcdEncode v % 2 ^ bits + packNum rest * 2 ^ bits

def sumWidths (vs : List (Nat × Nat)) : Nat := (vs.map Prod.snd).sum

theorem packAux_eq (vs : List (Nat × Nat)) :
    ∀ num shift, packAux vs (num, shift) =
      (num + packNum vs * 2 ^ shift, shift + sumWidths vs) := by
  induction vs with
  | nil => intro num shift; simp [packAux, packNum, sumWidths]
  | cons p rest ih =>
    intro num shift
    obtain ⟨v, bits⟩ := p
    rw [packAux, ih, packNum]
    have h1 : sumWidths ((v, bits) :: rest) = bits + sumWidths rest := by
      simp [sumWidths]
    rw [h1, Prod.mk.injEq]
    constructor
    · rw [Nat.add_mul, Nat.add_assoc, Nat.pow_add]
      ring
    · omega

theorem packNum_lt (vs : List (Nat × Nat)) : packNum vs < 2 ^ sumWidths vs := by
  induction vs with
  | nil => simp [packNum, sumWidths]
  | cons p rest ih =>
    obtain ⟨v, bits⟩ := p
    have hsw : sumWidths ((v, bits) :: rest) = bits + sumWidths rest := by
      simp [sumWidths]
    rw [packNum, hsw, Nat.pow_add]
    have h1 : bcdEncode v % 2 ^ bits < 2 ^ bits :=
      Nat.mod_lt _ (Nat.pos_pow_of_pos bits (by norm_num))
    have h2 : packNum rest * 2 ^ bits ≤ (2 ^ sumWidths rest - 1) * 2 ^ bits := by
      apply Nat.mul_le_mul_right
      omega
    rw [Nat.sub_mul, Nat.one_mul] at h2
    have h3 : (0:Nat) < 2 ^ bits := Nat.pos_pow_of_pos bits (by norm_num)
    have h4 : (0:Nat) < 2 ^ sumWidths rest :=
      Nat.pos_pow_of_pos _ (by norm_num)
    have h5 : 2 ^ bits ≤ 2 ^ sumWidths rest * 2 ^ bits :=
      Nat.le_mul_of_pos_left _ h4
    rw [Nat.mul_comm (2 ^ bits) (2 ^ sumWidths rest)]
    omega

/-- Extracting fields of the given widths from the packed number recovers
the original values, provided each BCD-encoded value fits in its width. -/
theorem unpackNum_packNum (vs : List (Nat × Nat))
    (h : ∀ p ∈ vs, bcdEncode p.1 < 2 ^ p.2) :
    unpackNum (packNum vs) (vs.map Prod.snd) = some (vs.map Prod.fst) := by
  induction vs with
  | nil => simp [packNum, unpackNum]
  | cons p rest ih =>
    obtain ⟨v, bits⟩ := p
    have hv : bcdEncode v < 2 ^ bits := h (v, bits) (List.mem_cons_self _ _)
    have hmod : bcdEncode v % 2 ^ bits = bcdEncode v := Nat.mod_eq_of_lt hv
    have hpos : (0:Nat) < 2 ^ bits := Nat.pos_pow_of_pos bits (by norm_num)
    have hfield : packNum ((v, bits) :: rest) % 2 ^ bits = bcdEncode v := by
      rw [packNum, hmod, Nat.add_mul_mod_self_right, hmod]
    have hshift : packNum ((v, bits) :: rest) / 2 ^ bits = packNum rest := by
      rw [packNum, hmod, Nat.add_mul_div_right _ _ hpos,
        Nat.div_eq_of_lt hv, Nat.zero_add]
    rw [List.map_cons, unpackNum, hfield, bcdDecode_bcdEncode, hshift,
      ih (fun q hq => h q (List.mem_cons_of_mem _ hq))]
    simp

theorem natToBytes_length (n len : Nat) : (natToBytes n len).length = len := by
  induction len generalizing n with
  | zero => simp [natToBytes]
  | succ len ih => simp [natToBytes, ih]

theorem bytesToNat_append_singleton (bs : List Nat) (b : Nat) :
    bytesToNat (bs ++ [b]) = bytesToNat bs * 256 + b := by
  simp [bytesToNat, List.foldl_append]

theorem bytesToNat_natToBytes (n len : Nat) (h : n < 256 ^ len) :
    bytesToNat (natToBytes n len) = n := by
  induction len generalizing n with
  | zero =>
    interval_cases n
    rfl
  | succ len ih =>
    have hdiv : n / 256 < 256 ^ len := by
      rw [Nat.pow_succ] at h
      exact Nat.div_lt_of_lt_mul (by omega)
    rw [natToBytes, bytesToNat_append_singleton, ih _ hdiv]
    omega

theorem sumWidths_le_bytes (w : Nat) : 2 ^ w ≤ 256 ^ ((w + 7) / 8) := by
  have h : (256 : Nat) ^ ((w + 7) / 8) = 2 ^ (8 * ((w + 7) / 8)) := by
    norm_num [Nat.pow_mul]
  rw [h]
  apply Nat.pow_le_pow_right (by norm_num)
  omega

/-- The bit-packer inverse law, in the form the code obeys: values whose
BCD encodings fit their widths survive the round trip. -/
theorem unpack_pack (vs : List (Nat × Nat))
    (h : ∀ p ∈ vs, bcdEncode p.1 < 2 ^ p.2) :
    unpack (pack vs) (vs.map Prod.snd) = some (vs.map Prod.fst) := by
  rw [unpack, pack]
  have haux := packAux_eq vs 0 0
  rw [haux]
  simp only [Nat.pow_zero, Nat.mul_one, Nat.zero_add]
  rw [bytesToNat_natToBytes]
  · exact unpackNum_packNum vs h
  · exact lt_of_lt_of_le (packNum_lt vs) (sumWidths_le_bytes _)

theorem unpackNum_length (num : Nat) (ws vs : List Nat)
    (h : unpackNum num ws = some vs) : vs.length = ws.length := by
  induction ws generalizing num vs with
  | nil => simp [unpackNum] at h; simp [← h]
  | cons b rest ih =>
    rw [unpackNum] at h
    rcases hd : bcdDecode? (num % 2 ^ b) with _ | v
    · rw [hd] at h; exact absurd h (by simp)
    · rw [hd] at h
      rcases hr : unpackNum (num / 2 ^ b) rest with _ | tl
      · rw [hr] at h; exact absurd h (by simp)
      · rw [hr] at h
        have hv : vs = v :: tl := by
          simpa using h.symm
        subst hv
        simp [ih _ _ hr]

/-! ## Lemmas about Record decoding -/

/-- Unpacking a record's six fields either fails (a hex digit `a`-`f` in one
of the BCD fields) or yields six values within the decoded ranges. -/
theorem record_unpack_shape (data : List Nat) :
    unpack data [8, 8, 4, 2, 1, 1] = none ∨
    ∃ c s m car mo d, unpack data [8, 8, 4, 2, 1, 1] = some [c, s, m, car, mo, d] ∧
      c ≤ 99 ∧ s ≤ 99 ∧ m ≤ 9 ∧ car < 4 ∧ mo < 2 ∧ d < 2 := by
  rw [unpack]
  set n0 := bytesToNat data with hn0
  rcases hc : bcdDecode? (n0 % 2 ^ 8) with _ | c
  · left; rw [unpackNum, hc]
  have hcb : c ≤ 99 := by
    have h1 : n0 % 2 ^ 8 < 16 ^ 2 := by
      have := Nat.mod_lt n0 (show (0:Nat) < 2 ^ 8 by norm_num)
      omega
    have := bcdDecode_lt _ _ 2 h1 hc
    omega
  set n1 := n0 / 2 ^ 8 with hn1
  rcases hs : bcdDecode? (n1 % 2 ^ 8) with _ | s
  · left; rw [unpackNum, hc, unpackNum, hs]; rfl
  have hsb : s ≤ 99 := by
    have h1 : n1 % 2 ^ 8 < 16 ^ 2 := by
      have := Nat.mod_lt n1 (show (0:Nat) < 2 ^ 8 by norm_num)
      omega
    have := bcdDecode_lt _ _ 2 h1 hs
    omega
  set n2 := n1 / 2 ^ 8 with hn2
  rcases hm : bcdDecode? (n2 % 2 ^ 4) with _ | m
  · left; rw [unpackNum, hc, unpackNum, hs, unpackNum, hm]; rfl
  have hmb : m ≤ 9 := by
    have h1 : n2 % 2 ^ 4 < 16 ^ 1 := by
      have := Nat.mod_lt n2 (show (0:Nat) < 2 ^ 4 by norm_num)
      omega
    have := bcdDecode_lt _ _ 1 h1 hm
    omega
  set n3 := n2 / 2 ^ 4 with hn3
  have hcar : bcdDecode? (n3 % 2 ^ 2) = some (n3 % 2 ^ 2) :=
    bcdDecode_self _ (by have := Nat.mod_lt n3 (show (0:Nat) < 2 ^ 2 by norm_num); omega)
  set n4 := n3 / 2 ^ 2 with hn4
  have hmo : bcdDecode? (n4 % 2 ^ 1) = some (n4 % 2 ^ 1) :=
    bcdDecode_self _ (by have := Nat.mod_lt n4 (show (0:Nat) < 2 ^ 1 by norm_num); omega)
  set n5 := n4 / 2 ^ 1 with hn5
  have hd : bcdDecode? (n5 % 2 ^ 1) = some (n5 % 2 ^ 1) :=
    bcdDecode_self _ (by have := Nat.mod_lt n5 (show (0:Nat) < 2 ^ 1 by norm_num); omega)
  right
  refine ⟨c, s, m, n3 % 2 ^ 2, n4 % 2 ^ 1, n5 % 2 ^ 1, ?_, hcb, hsb, hmb,
    Nat.mod_lt n3 (by norm_num), Nat.mod_lt n4 (by norm_num),
    Nat.mod_lt n5 (by norm_num)⟩
  rw [unpackNum, hc, unpackNum, hs, unpackNum, hm, unpackNum, hcar,
    unpackNum, hmo, unpackNum, hd, unpackNum]
  rfl

theorem car_ofNat_lt (car : Nat) (h : car < 4) : Car.ofNat? car = some (match car with
    | 0 => Car.BLUE_FALCON | 1 => Car.WILD_GOOSE | 2 => Car.GOLDEN_FOX
    | _ => Car.FIRE_STINGRAY) := by
  interval_cases car <;> rfl

theorem mode_ofNat_lt (mo : Nat) (h : mo < 2) : Mode.ofNat? mo = some (match mo with
    | 0 => Mode.GRAND_PRIX | _ => Mode.PRACTICE) := by
  interval_cases mo <;> rfl

/-- `Record.from_data` never raises: the faithful exception-aware model
always returns `.ok`, with the same value as the total `Record.fromData`. -/
theorem record_fromDataE_eq (data : List Nat) :
    Record.fromDataE data = .ok (Record.fromData data) := by
  rcases record_unpack_shape data with h | ⟨c, s, m, car, mo, d, h, _, _, _, hcar, hmo, _⟩
  · rw [Record.fromData, Record.fromDataE, h]
  · simp only [Record.fromData, Record.fromDataE, h, car_ofNat_lt car hcar,
      mode_ofNat_lt mo hmo]

/-- When the six fields cannot be interpreted, `Record.from_data` returns
the default blank record. -/
theorem record_fromData_default (data : List Nat)
    (h : unpack data [8, 8, 4, 2, 1, 1] = none) : Record.fromData data = {} := by
  rw [Record.fromData, Record.fromDataE, h]

/-- Every decoded record has BCD-representable time fields. -/
theorem record_fromData_bounds (data : List Nat) :
    (Record.fromData data).minutes ≤ 9 ∧ (Record.fromData data).seconds ≤ 99 ∧
      (Record.fromData data).cents ≤ 99 := by
  rcases record_unpack_shape data with h | ⟨c, s, m, car, mo, d, h, hc, hs, hm, hcar, hmo, _⟩
  · rw [record_fromData_default data h]
    refine ⟨by norm_num, by norm_num, by norm_num⟩
  · simp only [Record.fromData, Record.fromDataE, h, car_ofNat_lt car hcar,
      mode_ofNat_lt mo hmo]
    exact ⟨hm, hs, hc⟩

theorem car_toNat_lt (car : Car) : car.toNat < 4 := by
  cases car <;> simp [Car.toNat]

theorem mode_toNat_lt (mo : Mode) : mo.toNat < 2 := by
  cases mo <;> simp [Mode.toNat]

theorem car_ofNat_toNat (car : Car) : Car.ofNat? car.toNat = some car := by
  cases car <;> rfl

theorem mode_ofNat_toNat (mo : Mode) : Mode.ofNat? mo.toNat = some mo := by
  cases mo <;> rfl

/-- The BCD-fit bounds for the six fields of a record whose time fields are
within decimal range. -/
theorem record_fields_fit (r : Record) (hm : r.minutes ≤ 9) (hs : r.seconds ≤ 99)
    (hc : r.cents ≤ 99) :
    ∀ p ∈ [(r.cents, 8), (r.seconds, 8), (r.minutes, 4), (r.car.toNat, 2),
      (r.mode.toNat, 1), ((if r.display then 1 else 0 : Nat), 1)],
      bcdEncode p.1 < 2 ^ p.2 := by
  intro p hp
  have h16 : (16:Nat) ^ 2 = 2 ^ 8 := by norm_num
  have h161 : (16:Nat) ^ 1 = 2 ^ 4 := by norm_num
  have hcar4 : r.car.toNat < 10 := lt_trans (car_toNat_lt r.car) (by norm_num)
  have hmo2 : r.mode.toNat < 10 := lt_trans (mode_toNat_lt r.mode) (by norm_num)
  simp only [List.mem_cons, List.not_mem_nil, or_false] at hp
  rcases hp with rfl | rfl | rfl | rfl | rfl | rfl
  · simpa [h16] using bcdEncode_lt r.cents 2 (by omega)
  · simpa [h16] using bcdEncode_lt r.seconds 2 (by omega)
  · simpa [h161] using bcdEncode_lt r.minutes 1 (by omega)
  · show bcdEncode r.car.toNat < 2 ^ 2
    rw [bcdEncode_self _ hcar4]
    exact car_toNat_lt r.car
  · show bcdEncode r.mode.toNat < 2 ^ 1
    rw [bcdEncode_self _ hmo2]
    exact mode_toNat_lt r.mode
  · show bcdEncode (if r.display then 1 else 0) < 2 ^ 1
    rcases r.display <;> norm_num [bcdEncode_self]

/-- Encode/decode round trip for a record with in-range time fields. -/
theorem record_roundtrip (r : Record) (hm : r.minutes ≤ 9) (hs : r.seconds ≤ 99)
    (hc : r.cents ≤ 99) : Record.fromData r.toData = r := by
  obtain ⟨rm, rs, rc, rcar, rmo, rd⟩ := r
  have h := unpack_pack _ (record_fields_fit ⟨rm, rs, rc, rcar, rmo, rd⟩ hm hs hc)
  simp only [List.map_cons, List.map_nil] at h
  simp only [Record.fromData, Record.fromDataE, Record.toData, h,
    car_ofNat_toNat, mode_ofNat_toNat]
  rcases rd <;> simp_all

theorem record_toData_length (r : Record) : (Record.toData r).length = 3 := by
  rw [Record.toData, pack, packAux_eq]
  simp [natToBytes_length, sumWidths]

/-- The wire bytes of an in-range record: big-endian, the BCD centiseconds
in the last byte, BCD seconds in the middle byte, and the first byte holding
the BCD minutes nibble plus the car, mode and display bits. -/
theorem record_toData_bytes (r : Record) (hm : r.minutes ≤ 9) (hs : r.seconds ≤ 99)
    (hc : r.cents ≤ 99) :
    r.toData = [bcdEncode r.minutes + 16 * r.car.toNat + 64 * r.mode.toNat +
      128 * (if r.display then 1 else 0), bcdEncode r.seconds, bcdEncode r.cents] := by
  have hA : bcdEncode r.cents < 256 := by
    have := bcdEncode_lt r.cents 2 (by omega)
    omega
  have hB : bcdEncode r.seconds < 256 := by
    have := bcdEncode_lt r.seconds 2 (by omega)
    omega
  have hM : bcdEncode r.minutes < 16 := by
    have := bcdEncode_lt r.minutes 1 (by omega)
    omega
  have hK := car_toNat_lt r.car
  have hMo := mode_toNat_lt r.mode
  have hcarE : bcdEncode r.car.toNat = r.car.toNat :=
    bcdEncode_self _ (lt_trans hK (by norm_num))
  have hmoE : bcdEncode r.mode.toNat = r.mode.toNat :=
    bcdEncode_self _ (lt_trans hMo (by norm_num))
  have h0 : bcdEncode 0 = 0 := by decide
  have h1 : bcdEncode 1 = 1 := by decide
  rcases hd : r.display
  all_goals
    simp only [Record.toData, pack, packAux_eq, packNum, sumWidths, hd,
      List.map_cons, List.map_nil, List.sum_cons, List.sum_nil, hcarE, hmoE]
    norm_num [natToBytes, h0, h1]
    refine ⟨?_, ?_, ?_⟩ <;> omega

/-! ## List slicing helpers -/

theorem sliced_here (xs ys : List Nat) (len : Nat) (h : xs.length = len) :
    sliced (xs ++ ys) 0 len = xs := by
  rw [sliced, List.drop_zero, ← h, List.take_left]

theorem sliced_skip (xs ys : List Nat) (n off len : Nat) (h : xs.length = n) :
    sliced (xs ++ ys) (n + off) len = sliced ys off len := by
  rw [sliced, sliced, ← h, ← List.drop_drop, List.drop_left]

/-! ## League decode lemmas -/

theorem leagueRecords_length (data : List Nat) :
    (leagueRecords data).length = 55 := by
  simp [leagueRecords, TRACKS, RECORDS]

theorem leagueRecords_bounds (data : List Nat) :
    ∀ r ∈ leagueRecords data,
      r.minutes ≤ 9 ∧ r.seconds ≤ 99 ∧ r.cents ≤ 99 := by
  intro r hr
  rw [leagueRecords] at hr
  obtain ⟨i, _, hi⟩ := List.mem_map.mp hr
  rw [← hi]
  exact record_fromData_bounds _

theorem recordBytes_length (rs : List Record) :
    ((rs.map Record.toData).flatten).length = 3 * rs.length := by
  induction rs with
  | nil => simp
  | cons r rs ih =>
    simp [ih, record_toData_length]
    ring

/-- Decoding the concatenated record encodings (with anything appended
after them) at offsets 0, 3, 6, ... recovers the original records, provided
their time fields are in BCD range. -/
theorem records_decode (rs : List Record) (tail : List Nat)
    (hb : ∀ r ∈ rs, r.minutes ≤ 9 ∧ r.seconds ≤ 99 ∧ r.cents ≤ 99) :
    (List.range rs.length).map
      (fun i => Record.fromData
        (sliced ((rs.map Record.toData).flatten ++ tail) (i * RECORD_SIZE)
          RECORD_SIZE)) = rs := by
  induction rs generalizing tail with
  | nil => simp
  | cons r rs ih =>
    have hr := hb r (List.mem_cons_self _ _)
    have hlen3 : (Record.toData r).length = RECORD_SIZE := record_toData_length r
    rw [List.length_cons, List.range_succ_eq_map, List.map_cons]
    have hhead : sliced ((List.map Record.toData (r :: rs)).flatten ++ tail) (0 * RECORD_SIZE)
        RECORD_SIZE = r.toData := by
      rw [List.map_cons, List.flatten_cons, List.append_assoc, Nat.zero_mul]
      exact sliced_here _ _ _ hlen3
    have htail : ∀ i ∈ List.range rs.length,
        Record.fromData (sliced ((List.map Record.toData (r :: rs)).flatten ++ tail)
          (Nat.succ i * RECORD_SIZE) RECORD_SIZE)
        = Record.fromData (sliced ((rs.map Record.toData).flatten ++ tail)
          (i * RECORD_SIZE) RECORD_SIZE) := by
      intro i _
      congr 1
      rw [List.map_cons, List.flatten_cons, List.append_assoc]
      have hmul : Nat.succ i * RECORD_SIZE = RECORD_SIZE + i * RECORD_SIZE := by
        simp [RECORD_SIZE]
        omega
      rw [hmul]
      exact sliced_skip _ _ _ _ _ hlen3
    rw [hhead, record_roundtrip r hr.1 hr.2.1 hr.2.2, List.map_map]
    have : List.map
        ((fun i => Record.fromData
          (sliced ((List.map Record.toData (r :: rs)).flatten ++ tail)
            (i * RECORD_SIZE) RECORD_SIZE)) ∘ Nat.succ) (List.range rs.length)
        = List.map (fun i => Record.fromData
            (sliced ((rs.map Record.toData).flatten ++ tail)
              (i * RECORD_SIZE) RECORD_SIZE)) (List.range rs.length) :=
      List.map_congr_left htail
    rw [this, ih _ (fun q hq => hb q (List.mem_cons_of_mem _ hq))]

theorem natToBytesLE_length (n len : Nat) : (natToBytesLE n len).length = len := by
  induction len generalizing n with
  | zero => simp [natToBytesLE]
  | succ len ih => simp [natToBytesLE, ih]

theorem league_toData_length (l : League) (h55 : l.records.length = 55) :
    (League.toData l).length = 167 := by
  simp only [League.toData]
  rw [List.length_append, recordBytes_length, h55, Checksum.toData,
    natToBytesLE_length, CHECKSUM_SIZE]

/-- Re-decoding an encoded league's record table (with any bytes appended)
recovers its records. -/
theorem leagueRecords_toData (l : League) (tail : List Nat)
    (h55 : l.records.length = 55)
    (hb : ∀ r ∈ l.records, r.minutes ≤ 9 ∧ r.seconds ≤ 99 ∧ r.cents ≤ 99) :
    leagueRecords (l.toData ++ tail) = l.records := by
  have h5 : TRACKS * RECORDS = l.records.length := by
    simp [TRACKS, RECORDS, h55]
  rw [leagueRecords, h5]
  simp only [League.toData, List.append_assoc]
  exact records_decode l.records _ hb

/-! ## Unlock byte lemmas -/

theorem chunked_eight {α : Type} (l : List α) (h : l.length = 8) :
    chunked l 4 = [l.take 4, l.drop 4] := by
  rcases l with _ | ⟨a, l⟩
  · simp at h
  rcases l with _ | ⟨b, l⟩
  · simp at h
  rcases l with _ | ⟨c, l⟩
  · simp at h
  rcases l with _ | ⟨d, l⟩
  · simp at h
  rcases l with _ | ⟨e, l⟩
  · simp at h
  rcases l with _ | ⟨f, l⟩
  · simp at h
  rcases l with _ | ⟨g, l⟩
  · simp at h
  rcases l with _ | ⟨i, l⟩
  · simp at h
  rcases l with _ | ⟨j, l⟩
  · rfl
  · simp at h

/-- `Save._parse_unlocks` returns either the empty list or exactly three
booleans. -/
theorem parseUnlocks_shape (data : List Nat) :
    parseUnlocks data = [] ∨ ∃ a b c, parseUnlocks data = [a, b, c] := by
  rcases hu : unpack data [1, 1, 1, 1, 1, 1, 1, 1] with _ | bits
  · left
    rw [parseUnlocks, hu]
  have h8 : bits.length = 8 := unpackNum_length _ _ _ hu
  have hch : chunked bits (UNLOCKS_SIZE * 8 / 2) = [bits.take 4, bits.drop 4] := by
    have h4 : UNLOCKS_SIZE * 8 / 2 = 4 := rfl
    rw [h4]
    exact chunked_eight bits h8
  simp only [parseUnlocks, hu, hch]
  split_ifs with hcond
  · right
    have h3 : (((bits.take 4).map (· != 0)).take LEAGUES).length = 3 := by
      rw [List.length_take, List.length_map, List.length_take, h8]
      rfl
    obtain ⟨a, b, c, habc⟩ := List.length_eq_three.mp h3
    exact ⟨a, b, c, habc⟩
  · left
    rfl

theorem parseUnlocks_packUnlocks (a b c : Bool) :
    parseUnlocks (packUnlocksList [a, b, c]) = [a, b, c] := by
  rcases a <;> rcases b <;> rcases c <;> decide

theorem parseUnlocks_packUnlocks_nil :
    parseUnlocks (packUnlocksList []) = [false, false, false] := by decide

theorem sum_ones {α : Type} (l : List α) : (l.map (fun _ => (1:Nat))).sum = l.length := by
  induction l with
  | nil => rfl
  | cons x l ih => simp [ih, Nat.add_comm]

theorem packUnlocksList_length (u : List Bool) : (packUnlocksList u).length = 1 := by
  have hdl : ((u ++ List.replicate (4 - u.length) false).take 4).length = 4 := by
    rw [List.length_take, List.length_append, List.length_replicate]
    omega
  simp only [packUnlocksList, pack, packAux_eq, UNLOCKS_SIZE]
  rw [natToBytes_length]
  have hsw : sumWidths ((((u ++ List.replicate (8 / 2 - u.length) false).take (8 / 2)) ++
      ((u ++ List.replicate (8 / 2 - u.length) false).take (8 / 2))).map
        (fun b => ((if b then 1 else 0), 1))) = 8 := by
    rw [sumWidths, List.map_map]
    have : (Prod.snd ∘ fun b : Bool => ((if b then (1:Nat) else 0), (1:Nat))) =
        fun _ => (1:Nat) := rfl
    rw [this, sum_ones, List.length_append]
    have h4 : (1 * 8 / 2 : Nat) = 4 := by norm_num
    simp only [List.length_take, List.length_append, List.length_replicate]
    omega
  simp only [one_mul] at hsw ⊢
  rw [hsw]

/-! ## Save encode/decode lemmas -/

theorem sliced_skip' (xs ys : List Nat) (n len : Nat) (h : xs.length = n) :
    sliced (xs ++ ys) n len = sliced ys 0 len := by
  have := sliced_skip xs ys n 0 len h
  simpa using this

/-- Decoding the encoding of any save with 3 leagues of 55 in-range records:
the records survive unchanged, the decoded league names are the three fixed
ones, and the unlock list survives except that an empty unlock list decodes
back as three `false` flags. -/
theorem save_decode_toData (s : Save) (pad : List Nat)
    (h3 : s.leagues.length = 3)
    (h55 : ∀ l ∈ s.leagues, l.records.length = 55)
    (hb : ∀ l ∈ s.leagues, ∀ r ∈ l.records,
      r.minutes ≤ 9 ∧ r.seconds ≤ 99 ∧ r.cents ≤ 99)
    (hu : s.unlocks = [] ∨ ∃ a b c, s.unlocks = [a, b, c]) :
    (Save.fromData (s.toData pad)).leagues.map League.records
      = s.leagues.map League.records ∧
    (Save.fromData (s.toData pad)).leagues.map League.name
      = ["Knight", "Queen", "King"] ∧
    (Save.fromData (s.toData pad)).unlocks
      = (if s.unlocks = [] then [false, false, false] else s.unlocks) := by
  obtain ⟨A, B, C, hABC⟩ := List.length_eq_three.mp h3
  have hmemA : A ∈ s.leagues := by rw [hABC]; simp
  have hmemB : B ∈ s.leagues := by rw [hABC]; simp
  have hmemC : C ∈ s.leagues := by rw [hABC]; simp
  have hA55 := h55 A hmemA
  have hB55 := h55 B hmemB
  have hC55 := h55 C hmemC
  have hAlen : A.toData.length = 167 := league_toData_length A hA55
  have hBlen : B.toData.length = 167 := league_toData_length B hB55
  have hClen : C.toData.length = 167 := league_toData_length C hC55
  have hU1 : (packUnlocksList s.unlocks).length = 1 := packUnlocksList_length _
  have hSIGlen : SIGNATURE.length = 5 := rfl
  obtain ⟨R, hT⟩ : ∃ R, s.toData pad = SIGNATURE ++ (A.toData ++ (B.toData ++
      (C.toData ++ (packUnlocksList s.unlocks ++ (SIGNATURE ++ R))))) := by
    simp only [Save.toData, Save.packUnlocks, hABC, List.map_cons, List.map_nil,
      List.flatten_cons, List.flatten_nil, List.append_nil, List.append_assoc]
    exact ⟨_, rfl⟩
  have e0 : sliced (s.toData pad) SIGNATURE_SIZE LEAGUE_SIZE = A.toData := by
    rw [hT, show SIGNATURE_SIZE = (5:Nat) from rfl,
      show LEAGUE_SIZE = (167:Nat) from rfl, sliced_skip' _ _ _ _ hSIGlen]
    exact sliced_here _ _ _ hAlen
  have e1 : sliced (s.toData pad) (SIGNATURE_SIZE + LEAGUE_SIZE) LEAGUE_SIZE
      = B.toData := by
    rw [hT, show SIGNATURE_SIZE + LEAGUE_SIZE = (5 + 167:Nat) from rfl,
      show LEAGUE_SIZE = (167:Nat) from rfl,
      sliced_skip _ _ _ _ _ hSIGlen, sliced_skip' _ _ _ _ hAlen]
    exact sliced_here _ _ _ hBlen
  have e2 : sliced (s.toData pad) (SIGNATURE_SIZE + 2 * LEAGUE_SIZE) LEAGUE_SIZE
      = C.toData := by
    rw [hT, show SIGNATURE_SIZE + 2 * LEAGUE_SIZE = (5 + (167 + 167):Nat) from rfl,
      show LEAGUE_SIZE = (167:Nat) from rfl,
      sliced_skip _ _ _ _ _ hSIGlen, sliced_skip _ _ _ _ _ hAlen,
      sliced_skip' _ _ _ _ hBlen]
    exact sliced_here _ _ _ hClen
  have e3 : sliced (s.toData pad) (SIGNATURE_SIZE + 3 * LEAGUE_SIZE) UNLOCKS_SIZE
      = packUnlocksList s.unlocks := by
    rw [hT,
      show SIGNATURE_SIZE + 3 * LEAGUE_SIZE = (5 + (167 + (167 + 167)):Nat) from rfl,
      show UNLOCKS_SIZE = (1:Nat) from rfl,
      sliced_skip _ _ _ _ _ hSIGlen, sliced_skip _ _ _ _ _ hAlen,
      sliced_skip _ _ _ _ _ hBlen, sliced_skip' _ _ _ _ hClen]
    exact sliced_here _ _ _ hU1
  have hArec : leagueRecords A.toData = A.records := by
    have := leagueRecords_toData A [] hA55 (hb A hmemA)
    rwa [List.append_nil] at this
  have hBrec : leagueRecords B.toData = B.records := by
    have := leagueRecords_toData B [] hB55 (hb B hmemB)
    rwa [List.append_nil] at this
  have hCrec : leagueRecords C.toData = C.records := by
    have := leagueRecords_toData C [] hC55 (hb C hmemC)
    rwa [List.append_nil] at this
  refine ⟨?_, ?_, ?_⟩
  · simp only [Save.fromData, League.fromData, e0, e1, e2, hABC, List.map_cons,
      List.map_nil, hArec, hBrec, hCrec]
  · simp only [Save.fromData, League.fromData, List.map_cons, List.map_nil]
  · simp only [Save.fromData, e3]
    rcases hu with hnil | ⟨a, b, c, habc⟩
    · rw [hnil, if_pos rfl]
      exact parseUnlocks_packUnlocks_nil
    · rw [habc, if_neg (by simp)]
      exact parseUnlocks_packUnlocks a b c

/-- The decoded form of `Save.fromData`: three leagues of 55 bounded
records with the fixed names, and a well-shaped unlock list. -/
theorem save_fromData_shape (data : List Nat) :
    (Save.fromData data).leagues.length = 3 ∧
    (∀ l ∈ (Save.fromData data).leagues, l.records.length = 55) ∧
    (∀ l ∈ (Save.fromData data).leagues, ∀ r ∈ l.records,
      r.minutes ≤ 9 ∧ r.seconds ≤ 99 ∧ r.cents ≤ 99) ∧
    ((Save.fromData data).unlocks = [] ∨
      ∃ a b c, (Save.fromData data).unlocks = [a, b, c]) ∧
    (Save.fromData data).leagues.map League.name = ["Knight", "Queen", "King"] := by
  refine ⟨rfl, ?_, ?_, parseUnlocks_shape _, rfl⟩
  · intro l hl
    simp only [Save.fromData, League.fromData, List.mem_cons, List.not_mem_nil,
      or_false] at hl
    rcases hl with rfl | rfl | rfl <;> exact leagueRecords_length _
  · intro l hl
    simp only [Save.fromData, League.fromData, List.mem_cons, List.not_mem_nil,
      or_false] at hl
    rcases hl with rfl | rfl | rfl <;> exact leagueRecords_bounds _

/-! ## Merge lemmas -/

theorem record_lt_irrefl (r : Record) : Record.lt r r = false := by
  simp [Record.lt]

theorem pymin_self (r : Record) : pymin r r = r := by
  simp [pymin, record_lt_irrefl]

theorem mergeTrackRecs_self (t : TrackRecs) :
    mergeTrackRecs t t
      = (sortRecords (t.races ++ t.races)).take (RECORDS - 1) ++ [t.lap] := by
  simp [mergeTrackRecs, pymin_self]

theorem zip_self_flatMap {α β : Type} (l : List α) (g : α × α → List β) :
    (l.zip l).flatMap g = l.flatMap (fun a => g (a, a)) := by
  induction l with
  | nil => rfl
  | cons x l ih => simp [ih]

/-- What the code does when a league is merged with an equal copy of
itself: every track keeps its lap and gets the first 10 of the stably
sorted doubled race list. -/
theorem mergeWith_self (l : League) :
    l.mergeWith l = { l with records := l.trackRecords.flatMap (fun t =>
      (sortRecords (t.races ++ t.races)).take (RECORDS - 1) ++ [t.lap]) } := by
  simp only [League.mergeWith, if_pos rfl, if_true, zip_self_flatMap,
    mergeTrackRecs_self]

/-- Self-merge in full: unlocks are unchanged and every league is rebuilt
by the per-track formula above. -/
theorem merge_self_eq (s : Save) :
    s.merge s = { s with
      leagues := s.leagues.map (fun l => { l with
        records := l.trackRecords.flatMap (fun t =>
          (sortRecords (t.races ++ t.races)).take (RECORDS - 1) ++ [t.lap]) }),
      unlocks := s.unlocks } := by
  rw [Save.merge]
  congr 1
  · rw [List.zipWith_same, List.drop_length, List.append_nil]
    exact List.map_congr_left (fun l _ => mergeWith_self l)
  · rw [List.zipWith_same]
    simp

theorem sum_le_bound (l : List Nat) (h : ∀ b ∈ l, b ≤ 255) :
    l.sum ≤ 255 * l.length := by
  induction l with
  | nil => simp
  | cons x l ih =>
    have hx := h x (List.mem_cons_self _ _)
    have hl := ih (fun b hb => h b (List.mem_cons_of_mem _ hb))
    simp only [List.sum_cons, List.length_cons]
    calc x + l.sum ≤ 255 + 255 * l.length := by omega
      _ = 255 * (l.length + 1) := by ring

/-! ## Claim theorems -/

/-- Claim C1 (amended): re-decoding the encoding of any decoded save
preserves every league's record table (all six fields of all 165 records)
and the league names; the unlock list is preserved whenever the original
unlock byte was valid (three flags), while an invalid original unlock byte
(empty decoded unlock list) re-decodes as three `false` flags.  Checksums
and padding are regenerated, not compared. -/
theorem save_decode_encode_roundtrip (data : List Nat) :
    (Save.fromData ((Save.fromData data).toData [])).leagues.map League.records
      = (Save.fromData data).leagues.map League.records ∧
    (Save.fromData ((Save.fromData data).toData [])).leagues.map League.name
      = (Save.fromData data).leagues.map League.name ∧
    (Save.fromData ((Save.fromData data).toData [])).unlocks
      = (if (Save.fromData data).unlocks = [] then [false, false, false]
        else (Save.fromData data).unlocks) := by
  obtain ⟨h3, h55, hb, hu, hnames⟩ := save_fromData_shape data
  obtain ⟨hrec, hname, hunl⟩ :=
    save_decode_toData (Save.fromData data) [] h3 h55 hb hu
  exact ⟨hrec, by rw [hname, hnames], hunl⟩

/-- A 507-byte image whose unlock byte (offset 506) is `0b01010011`: its
unlock redundancy check fails, so the decoded unlock list is empty. -/
def c1CexData : List Nat := List.replicate 506 0 ++ [83]

set_option maxRecDepth 100000 in
/-- Claim C1 counterexample: for the image `c1CexData` the decoded save has
an empty unlock list, and re-decoding its encoding yields `[false, false,
false]` instead — the round trip does not preserve the unlocks field. -/
theorem save_roundtrip_unlocks_counterexample :
    (Save.fromData ((Save.fromData c1CexData).toData [])).unlocks
      ≠ (Save.fromData c1CexData).unlocks := by decide

/-- Claim C2 (amended): the bit-packer inverse law holds for value/width
pairs whose BCD encodings fit their widths — `pack` stores each value's
decimal rendering reread as hexadecimal (`bcdEncode`), so the round trip
recovers the values exactly when `bcdEncode value < 2 ^ width` for every
pair (rather than `value < 2 ^ width` as claimed). -/
theorem unpack_pack_bcd_inverse (vs : List (Nat × Nat))
    (h : ∀ p ∈ vs, bcdEncode p.1 < 2 ^ p.2) :
    unpack (pack vs) (vs.map Prod.snd) = some (vs.map Prod.fst) :=
  unpack_pack vs h

theorem unpack_pack_bcd_inverse_witness :
    (∀ p ∈ [((59:Nat), (8:Nat)), (9, 4), (3, 2)], bcdEncode p.1 < 2 ^ p.2) ∧
    unpack (pack [(59, 8), (9, 4), (3, 2)]) [8, 4, 2] = some [59, 9, 3] := by
  refine ⟨by decide, ?_⟩
  have h := unpack_pack_bcd_inverse [(59, 8), (9, 4), (3, 2)] (by decide)
  simpa using h

/-- Claim C2 counterexample: the pair `(10, 4)` has `10 < 2 ^ 4` (the value
is pre-masked to its width), yet `unpack (pack [(10, 4)]) [4]` returns
`[0]`, not `[10]`: the BCD encoding `0x10` of 10 is truncated by the 4-bit
mask. -/
theorem unpack_pack_mask_counterexample :
    (10 : Nat) < 2 ^ 4 ∧ unpack (pack [(10, 4)]) [4] = some [0] ∧
      unpack (pack [(10, 4)]) [4] ≠ some [10] := by decide

/-- Claim C3 (amended): merging a save with an identical copy of itself
keeps the unlock list and every track's best-lap record, but rebuilds each
track's race list as the first 10 entries of the stable sort of the doubled
race list — duplicating the five best times and dropping the five worst —
so the save is in general NOT left unchanged. -/
theorem merge_self_spec (s : Save) (h3 : s.leagues.length = 3)
    (h55 : ∀ l ∈ s.leagues, l.records.length = 55)
    (hu : s.unlocks.length = 3) :
    (s.merge s).unlocks = s.unlocks ∧
    (s.merge s).leagues = s.leagues.map (fun l => { l with
      records := l.trackRecords.flatMap (fun t =>
        (sortRecords (t.races ++ t.races)).take (RECORDS - 1) ++ [t.lap]) }) := by
  rw [merge_self_eq]
  exact ⟨rfl, rfl⟩

set_option maxRecDepth 100000 in
theorem merge_self_spec_witness :
    (Save.fromData []).leagues.length = 3 ∧
    (((Save.fromData []).merge (Save.fromData [])).unlocks
        = (Save.fromData []).unlocks ∧
      ((Save.fromData []).merge (Save.fromData [])).leagues
        = (Save.fromData []).leagues.map (fun l => { l with
          records := l.trackRecords.flatMap (fun t =>
            (sortRecords (t.races ++ t.races)).take (RECORDS - 1) ++ [t.lap]) })) :=
  ⟨by decide,
   merge_self_spec (Save.fromData []) (by decide) (by decide) (by decide)⟩

/-- A save with three leagues of 55 records, three unlock flags, and one
non-default race time in the first track of the Knight league. -/
def mergeCexSave : Save :=
  { leagues := [
      { records := Record.mk 1 0 0 .BLUE_FALCON .GRAND_PRIX true
          :: List.replicate 54 {},
        name := "Knight" },
      { records := List.replicate 55 ({} : Record), name := "Queen" },
      { records := List.replicate 55 ({} : Record), name := "King" }],
    unlocks := [false, false, false],
    padding := [] }

set_option maxRecDepth 100000 in
/-- Claim C3 counterexample: `mergeCexSave` satisfies the claim's shape
(three leagues of 55 records, three unlock flags), yet merging it with an
identical copy of itself changes it: the 1:00.00 race is duplicated into
slot 2 of Mute City I, displacing a blank record. -/
theorem merge_self_counterexample :
    mergeCexSave.leagues.length = 3 ∧
    (∀ l ∈ mergeCexSave.leagues, l.records.length = 55) ∧
    mergeCexSave.unlocks.length = 3 ∧
    mergeCexSave.merge mergeCexSave ≠ mergeCexSave := by decide

/-- Claim C4 (amended): unlock byte `0b00110011` (= 51) decodes to
`[true, true, false]` for `[Knight, Queen, King]` — bit 0 (the least
significant) is Knight's flag, so flag bits `011` unlock Knight and Queen,
not Queen and King; byte `0b01010011` (= 83) fails the duplicate check and
decodes to the empty unlock list (with a warning). -/
theorem unlock_decode_examples :
    parseUnlocks [51] = [true, true, false] ∧ parseUnlocks [83] = [] := by
  decide

/-- Claim C4 counterexample: byte `0b00110011` does NOT decode to
`[false, true, true]` as the claim states. -/
theorem unlock_decode_counterexample :
    parseUnlocks [51] ≠ [false, true, true] := by decide

/-- Claim C5: after merging, each of the three unlock flags is the boolean
OR of the two inputs' flags at that league position. -/
theorem merge_unlocks_or (s o : Save) (hs : s.unlocks.length = 3)
    (ho : o.unlocks.length = 3) (i : Nat) (hi : i < 3) :
    (s.merge o).unlocks.getD i false
      = (s.unlocks.getD i false || o.unlocks.getD i false) := by
  obtain ⟨a, b, c, habc⟩ := List.length_eq_three.mp hs
  obtain ⟨d, e, f, hdef⟩ := List.length_eq_three.mp ho
  have hm : (s.merge o).unlocks = [a || d, b || e, c || f] := by
    simp [Save.merge, habc, hdef]
  rw [hm, habc, hdef]
  interval_cases i <;> rfl

theorem merge_unlocks_or_witness :
    ((Save.mk [] [true, false, true] []).merge
        (Save.mk [] [false, false, true] [])).unlocks.getD 0 false
      = ((Save.mk [] [true, false, true] []).unlocks.getD 0 false ||
         (Save.mk [] [false, false, true] []).unlocks.getD 0 false) :=
  merge_unlocks_or _ _ (by decide) (by decide) 0 (by decide)

/-- Claim C6 (amended): `Checksum.from_data` is the plain sum of the byte
values, with no modular reduction; it agrees with "sum mod 2^16" exactly
when the sum is below 2^16, which holds for every byte string of at most
257 bytes (in particular for the 165-byte league regions the program
checksums). -/
theorem checksum_sum_mod_bounded (data : List Nat) (hbyte : ∀ b ∈ data, b ≤ 255)
    (hlen : data.length ≤ 257) :
    Checksum.fromData data = data.sum % 2 ^ 16 := by
  have hsum : data.sum ≤ 255 * data.length := sum_le_bound data hbyte
  have hlt : data.sum < 2 ^ 16 := by omega
  rw [Checksum.fromData, Nat.mod_eq_of_lt hlt]

theorem checksum_sum_mod_bounded_witness :
    (∀ b ∈ ([70, 90, 69, 82, 79] : List Nat), b ≤ 255) ∧
    ([70, 90, 69, 82, 79] : List Nat).length ≤ 257 ∧
    Checksum.fromData [70, 90, 69, 82, 79] = [70, 90, 69, 82, 79].sum % 2 ^ 16 :=
  ⟨by decide, by decide, checksum_sum_mod_bounded _ (by decide) (by decide)⟩

set_option maxRecDepth 100000 in
/-- Claim C6 counterexample: 258 bytes of `0xFF` sum to 65790, and
`Checksum.from_data` returns 65790, not 65790 mod 2^16 = 254. -/
theorem checksum_mod_counterexample :
    Checksum.fromData (List.replicate 258 255) = 65790 ∧
    Checksum.fromData (List.replicate 258 255)
      ≠ (List.replicate 258 255).sum % 2 ^ 16 := by decide

/-- Claim C7 (amended): `Record.__lt__` compares the `(minutes, seconds,
cents)` tuples lexicographically; this coincides with comparison by total
centiseconds whenever both records' seconds are at most 59 and cents at
most 99 (the semantically valid ranges) — but not on the full
wire-representable ranges.  The display flag, car and mode play no part. -/
theorem record_lt_iff_centiseconds (a b : Record)
    (ha1 : a.seconds ≤ 59) (ha2 : a.cents ≤ 99)
    (hb1 : b.seconds ≤ 59) (hb2 : b.cents ≤ 99) :
    (Record.lt a b = true ↔ a.timeCents < b.timeCents) := by
  simp only [Record.lt, Record.timeCents]
  split_ifs with h1 h2 <;> simp only [decide_eq_true_eq] <;> omega

theorem record_lt_iff_centiseconds_witness :
    (Record.lt (Record.mk 1 2 3 .BLUE_FALCON .GRAND_PRIX false)
        (Record.mk 1 2 4 .WILD_GOOSE .PRACTICE true) = true ↔
      (Record.mk 1 2 3 .BLUE_FALCON .GRAND_PRIX false).timeCents
        < (Record.mk 1 2 4 .WILD_GOOSE .PRACTICE true).timeCents) :=
  record_lt_iff_centiseconds _ _ (by decide) (by decide) (by decide) (by decide)

/-- Claim C7 counterexample: within the claimed wire ranges (minutes ≤ 15,
seconds ≤ 255, cents ≤ 255), a record of 0:61.00 (6100 centiseconds) is
lexicographically below 1:00.00 (6000 centiseconds), so `r1 < r2` holds
while its total centiseconds are not smaller. -/
theorem record_lt_counterexample :
    (Record.mk 0 61 0 .BLUE_FALCON .GRAND_PRIX false).minutes ≤ 15 ∧
    (Record.mk 0 61 0 .BLUE_FALCON .GRAND_PRIX false).seconds ≤ 255 ∧
    (Record.mk 0 61 0 .BLUE_FALCON .GRAND_PRIX false).cents ≤ 255 ∧
    Record.lt (Record.mk 0 61 0 .BLUE_FALCON .GRAND_PRIX false)
      (Record.mk 1 0 0 .BLUE_FALCON .GRAND_PRIX false) = true ∧
    ¬ ((Record.mk 0 61 0 .BLUE_FALCON .GRAND_PRIX false).timeCents
      < (Record.mk 1 0 0 .BLUE_FALCON .GRAND_PRIX false).timeCents) := by decide

/-- Claim C8: `Record.from_data` never raises on any input byte string —
the exception-aware model always returns `.ok` — and whenever the six
fields cannot be interpreted it returns the default blank record
(9:59.99, Blue Falcon, Grand Prix, hidden). -/
theorem record_fromData_total_default (data : List Nat) :
    Record.fromDataE data = Except.ok (Record.fromData data) ∧
    (unpack data [8, 8, 4, 2, 1, 1] = none →
      Record.fromData data = Record.mk 9 59 99 .BLUE_FALCON .GRAND_PRIX false) :=
  ⟨record_fromDataE_eq data, fun h => record_fromData_default data h⟩

theorem record_fromData_total_default_witness :
    Record.fromDataE [255, 0, 0] = Except.ok (Record.fromData [255, 0, 0]) ∧
    Record.fromData [255, 0, 0]
      = Record.mk 9 59 99 .BLUE_FALCON .GRAND_PRIX false :=
  ⟨(record_fromData_total_default [255, 0, 0]).1,
   (record_fromData_total_default [255, 0, 0]).2 (by decide)⟩

/-- Claim C9: `League.from_data` raises on a checksum mismatch exactly when
the strict flag is set; with the default flag it always returns a league
holding all 55 decoded records, the same league a matching checksum would
have produced. -/
theorem league_checksum_policy (data : List Nat) (name : String) :
    League.fromDataE data name false = Except.ok (League.fromData data name) ∧
    League.fromDataE data name true =
      (if Checksum.parse (sliced data (TRACKS * RECORDS * RECORD_SIZE) CHECKSUM_SIZE)
          = Checksum.fromData (sliced data 0 (TRACKS * RECORDS * RECORD_SIZE))
        then Except.ok (League.fromData data name)
        else Except.error ("League checksum FAIL")) ∧
    (League.fromData data name).records.length = 55 := by
  refine ⟨?_, ?_, leagueRecords_length data⟩
  · simp only [League.fromDataE, League.fromData]
    split_ifs <;> simp_all
  · simp only [League.fromDataE, League.fromData]
    split_ifs <;> simp_all

/-- Claim C10: record time fields are stored as binary-coded decimal — for
minutes in 0..9, seconds and cents in 0..99, `to_data` writes the BCD
renderings (`bcdEncode`, e.g. seconds 59 becomes byte `0x59`) into the
three wire bytes, and `from_data` recovers exactly the same record. -/
theorem record_bcd_roundtrip (r : Record) (hm : r.minutes ≤ 9)
    (hs : r.seconds ≤ 99) (hc : r.cents ≤ 99) :
    r.toData = [bcdEncode r.minutes + 16 * r.car.toNat + 64 * r.mode.toNat +
      128 * (if r.display then 1 else 0), bcdEncode r.seconds,
      bcdEncode r.cents] ∧
    Record.fromData r.toData = r :=
  ⟨record_toData_bytes r hm hs hc, record_roundtrip r hm hs hc⟩

theorem record_bcd_roundtrip_witness :
    ((Record.mk 9 59 99 .BLUE_FALCON .GRAND_PRIX false).toData
        = [bcdEncode 9 + 16 * 0 + 64 * 0 + 128 * 0, bcdEncode 59,
           bcdEncode 99] ∧
      Record.fromData (Record.mk 9 59 99 .BLUE_FALCON .GRAND_PRIX false).toData
        = Record.mk 9 59 99 .BLUE_FALCON .GRAND_PRIX false) :=
  record_bcd_roundtrip _ (by decide) (by decide) (by decide)

end FZero
